import Mathlib

/-!
Verification of the pw-hub-tactics multi-client synchronization core.

The definitions below are a shallow embedding of:
* `src/server/src/rooms/RoomManager.ts` (the authoritative per-room store),
* `src/server/dist/index.js` (the socket relay: `join_room`, `update_object`,
  `create_object`, `ping`; note that no `delete_object` listener is registered),
* `src/client/src/hooks/useRoomSync.ts` (client reconciler: local mirror,
  per-object throttled emission),
* the `useCanvasHistory` hook (snapshot Undo/Redo, capacity 20) and the
  `DrawingCanvas` external-objects effect.

JavaScript `Map`s are embedded as association lists with JS `Map` semantics:
`set` replaces the value at the first matching key in place (or appends),
`get` finds the first matching key, `delete` removes the first matching entry.
Since a real `Map` has unique keys, first-occurrence semantics agree with it;
the development also tracks the no-duplicate-keys invariant where it matters.
Numeric positions are embedded as `Int`: none of the verified properties
performs arithmetic on coordinates, they are only stored, copied and compared.
-/

set_option maxHeartbeats 1000000

namespace PwHub

/-- JS `Map.prototype.set`: replace the value at the first entry with this key,
    keeping its position; append a fresh entry if the key is absent. -/
def setKV {α : Type} : List (String × α) → String → α → List (String × α)
  | [], k, v => [(k, v)]
  | (k', v') :: rest, k, v =>
    if k' = k then (k', v) :: rest else (k', v') :: setKV rest k v

/-- JS `Map.prototype.get`: value at the first entry with this key. -/
def getKV {α : Type} (l : List (String × α)) (k : String) : Option α :=
  (l.find? (fun p => p.1 == k)).map (fun p => p.2)

/-- JS `Map.prototype.delete`: remove the first entry with this key. -/
def delKV {α : Type} : List (String × α) → String → List (String × α)
  | [], _ => []
  | (k', v') :: rest, k =>
    if k' = k then rest else (k', v') :: delKV rest k

/-- JS `Map.prototype.has`. -/
def hasKV {α : Type} (l : List (String × α)) (k : String) : Bool :=
  (getKV l k).isSome

/-- Models `ObjectPosition` from `socket-events.ts`: the `{x, y}` payload. -/
structure ObjectPosition where
  x : Int
  y : Int
deriving Repr, DecidableEq

/-- Models `RoomObject` from `socket-events.ts`: `{id, x, y, type}`. -/
structure RoomObject where
  id : String
  x : Int
  y : Int
  ty : String
deriving Repr, DecidableEq

/-- Models `RoomState` from `socket-events.ts`: `{roomId, objects : Map id → RoomObject}`. -/
structure RoomState where
  roomId : String
  objects : List (String × RoomObject)
deriving Repr, DecidableEq

/-- Models `RoomManager.rooms : Map roomId → RoomState` (RoomManager.ts line 21). -/
structure RoomManager where
  rooms : List (String × RoomState)
deriving Repr, DecidableEq

/-- A freshly constructed `RoomManager` (`new RoomManager()`). -/
def emptyManager : RoomManager := ⟨[]⟩

/-- Models `RoomManager.getOrCreateRoom` (RoomManager.ts lines 28-36): create an empty
    room if absent, then return the room stored under the id together with the
    possibly-extended store. -/
def getOrCreateRoom (m : RoomManager) (roomId : String) : RoomManager × RoomState :=
  let m' : RoomManager :=
    if hasKV m.rooms roomId then m
    else ⟨setKV m.rooms roomId ⟨roomId, []⟩⟩
  (m', (getKV m'.rooms roomId).getD ⟨roomId, []⟩)

/-- Models `RoomManager.addObject` (RoomManager.ts lines 43-46):
    `getOrCreateRoom` then `room.objects.set(object.id, object)`. -/
def addObject (m : RoomManager) (roomId : String) (obj : RoomObject) : RoomManager :=
  let p := getOrCreateRoom m roomId
  ⟨setKV p.1.rooms roomId { p.2 with objects := setKV p.2.objects obj.id obj }⟩

/-- Models `RoomManager.updateObjectPosition` (RoomManager.ts lines 55-65): `false` if
    the room or the object is missing, otherwise overwrite `x`/`y` in place. -/
def updateObjectPosition (m : RoomManager) (roomId objectId : String)
    (position : ObjectPosition) : Bool × RoomManager :=
  match getKV m.rooms roomId with
  | none => (false, m)
  | some room =>
    match getKV room.objects objectId with
    | none => (false, m)
    | some obj =>
      let obj' := { obj with x := position.x, y := position.y }
      (true, ⟨setKV m.rooms roomId { room with objects := setKV room.objects objectId obj' }⟩)

/-- Models `RoomManager.deleteObject` (RoomManager.ts lines 73-77): `false` if the room
    is missing, otherwise `room.objects.delete(objectId)`, whose JS result is
    `true` iff the key was present. -/
def deleteObject (m : RoomManager) (roomId objectId : String) : Bool × RoomManager :=
  match getKV m.rooms roomId with
  | none => (false, m)
  | some room =>
    (hasKV room.objects objectId,
     ⟨setKV m.rooms roomId { room with objects := delKV room.objects objectId }⟩)

/-- Models `RoomManager.getRoomObjects` (RoomManager.ts lines 84-88):
    `Array.from(room.objects.values())`, `[]` for an unknown room. -/
def getRoomObjects (m : RoomManager) (roomId : String) : List RoomObject :=
  match getKV m.rooms roomId with
  | none => []
  | some room => room.objects.map (fun p => p.2)

/-- Models `RoomManager.deleteRoom` (RoomManager.ts lines 94-96). -/
def deleteRoom (m : RoomManager) (roomId : String) : RoomManager :=
  ⟨delKV m.rooms roomId⟩

/-- Models `RoomManager.hasRoom` (RoomManager.ts lines 102-104). -/
def hasRoom (m : RoomManager) (roomId : String) : Bool :=
  hasKV m.rooms roomId

/-- Lookup of one object through the store: room map, then object map. -/
def roomLookup (m : RoomManager) (roomId objectId : String) : Option RoomObject :=
  (getKV m.rooms roomId).bind (fun room => getKV room.objects objectId)

/-! ## The socket relay (`src/server/dist/index.js`)

Per-connection state lives in two places: `socket.data.roomId` (written only by
the `join_room` handler) and socket.io room membership (`socket.join`). A
broadcast `socket.to(roomId).emit(...)` reaches every socket that joined the
socket.io room `roomId`, except the sender. -/

/-- Global relay state: the store singleton, each socket's `data.roomId`, and
    socket.io room membership pairs `(socketId, roomId)` accumulated by
    `socket.join` (joining is idempotent and never leaves a room). -/
structure ServerState where
  manager : RoomManager
  socketRoom : List (String × String)
  membership : List (String × String)
deriving Repr, DecidableEq

/-- The client-to-server events of `socket-events.ts` (`ClientToServerEvents`). -/
inductive ClientEvent where
  | joinRoom (roomId : String)
  | updateObject (objectId : String) (position : ObjectPosition)
  | createObject (obj : RoomObject)
  | deleteObject (objectId : String)
  | ping
deriving Repr, DecidableEq

/-- The server-to-client events of `socket-events.ts` (`ServerToClientEvents`). -/
inductive ServerMsg where
  | roomState (objects : List RoomObject)
  | objectUpdated (objectId : String) (position : ObjectPosition)
  | objectCreated (obj : RoomObject)
  | objectDeleted (objectId : String)
  | pong
deriving Repr, DecidableEq

/-- Models `socket.join roomId`: idempotent insertion into socket.io membership. -/
def joinMember (membership : List (String × String)) (socketId roomId : String) :
    List (String × String) :=
  if (socketId, roomId) ∈ membership then membership
  else membership ++ [(socketId, roomId)]

/-- Recipients of `socket.to(roomId).emit(...)`: every socket that is a member
    of the socket.io room, the sender excluded. -/
def roomMembersExcept (membership : List (String × String)) (roomId sender : String) :
    List String :=
  (membership.filter (fun p => p.2 == roomId && p.1 != sender)).map (fun p => p.1)

/-- The JS truthiness guard `if (!roomId) { ...; return; }` on
    `socket.data.roomId`: `undefined` and the empty string are falsy. -/
def jsRoomId (r : Option String) : Option String :=
  match r with
  | none => none
  | some rid => if rid = "" then none else some rid

/-- One inbound socket event, handled as by the `io.on('connection')` block of
    `dist/index.js` (lines 32-92). Returns the new relay state and the emitted
    messages as `(recipient socketId, message)` pairs.

    * `join_room` (lines 38-50): record `socket.data.roomId`, `socket.join`,
      `getOrCreateRoom`, and reply `room_state` to the sender only.
    * `update_object` (lines 55-68): drop if `socket.data.roomId` is falsy;
      otherwise `updateObjectPosition` and, only when it returned `true`,
      broadcast `object_updated` to the room minus the sender.
    * `create_object` (lines 73-83): drop if unjoined; otherwise `addObject`
      and broadcast `object_created` to the room minus the sender.
    * `delete_object`: `dist/index.js` registers **no** listener for this
      event, so socket.io drops it: no state change, no messages.
    * `ping` (lines 85-88): reply `pong` to the sender. -/
def handleEvent (st : ServerState) (sender : String) :
    ClientEvent → ServerState × List (String × ServerMsg)
  | .joinRoom rid =>
    let st1 : ServerState :=
      { st with
        socketRoom := setKV st.socketRoom sender rid
        membership := joinMember st.membership sender rid }
    let st2 : ServerState := { st1 with manager := (getOrCreateRoom st1.manager rid).1 }
    (st2, [(sender, .roomState (getRoomObjects st2.manager rid))])
  | .updateObject objectId position =>
    match jsRoomId (getKV st.socketRoom sender) with
    | none => (st, [])
    | some rid =>
      let r := updateObjectPosition st.manager rid objectId position
      if r.1 then
        ({ st with manager := r.2 },
         (roomMembersExcept st.membership rid sender).map
           (fun s => (s, .objectUpdated objectId position)))
      else ({ st with manager := r.2 }, [])
  | .createObject obj =>
    match jsRoomId (getKV st.socketRoom sender) with
    | none => (st, [])
    | some rid =>
      ({ st with manager := addObject st.manager rid obj },
       (roomMembersExcept st.membership rid sender).map
         (fun s => (s, .objectCreated obj)))
  | .deleteObject _ => (st, [])
  | .ping => (st, [(sender, .pong)])

/-- Relay state of a freshly started server. -/
def initialServer : ServerState := ⟨emptyManager, [], []⟩

/-! ## The client reconciler (`src/client/src/hooks/useRoomSync.ts`) -/

/-- Models `THROTTLE_INTERVAL` (useRoomSync.ts line 16), in milliseconds. -/
def THROTTLE_INTERVAL : Int := 16

/-- State held by `useRoomSync`: `socketRef.current` non-null, `isConnected`,
    the local `objects` mirror, and `lastEmitTimeRef` (objectId → ms). -/
structure ClientSync where
  hasSocket : Bool
  isConnected : Bool
  objects : List RoomObject
  lastEmitTime : List (String × Int)
deriving Repr, DecidableEq

/-- Network emissions performed by the hook. -/
inductive ClientEmit where
  | updateObject (objectId : String) (position : ObjectPosition)
  | createObject (obj : RoomObject)
deriving Repr, DecidableEq

/-- Client state after the mount effect ran and `connect` fired. -/
def connectedClient (objects : List RoomObject) : ClientSync :=
  ⟨true, true, objects, []⟩

/-- Models `emitUpdateObject` (useRoomSync.ts lines 102-114): return early unless a
    socket exists and the client is connected; then emit only when at least
    `THROTTLE_INTERVAL` ms elapsed since the last recorded emission for this
    object id (`lastEmitTimeRef.current.get(objectId) || 0`), recording `now`
    on emission. The local `objects` mirror is untouched. -/
def emitUpdateObject (now : Int) (c : ClientSync) (objectId : String)
    (position : ObjectPosition) : ClientSync × List ClientEmit :=
  if !c.hasSocket || !c.isConnected then (c, [])
  else
    let lastEmitTime := (getKV c.lastEmitTime objectId).getD 0
    if THROTTLE_INTERVAL ≤ now - lastEmitTime then
      ({ c with lastEmitTime := setKV c.lastEmitTime objectId now },
       [.updateObject objectId position])
    else (c, [])

/-- Models `emitUpdateObjectForce` (useRoomSync.ts lines 120-126): emit
    unconditionally when connected and record the emission time. -/
def emitUpdateObjectForce (now : Int) (c : ClientSync) (objectId : String)
    (position : ObjectPosition) : ClientSync × List ClientEmit :=
  if !c.hasSocket || !c.isConnected then (c, [])
  else
    ({ c with lastEmitTime := setKV c.lastEmitTime objectId now },
     [.updateObject objectId position])

/-- Models `createObject` (useRoomSync.ts lines 132-142): append locally always, emit
    `create_object` only when a socket exists and the client is connected. -/
def createObject (c : ClientSync) (obj : RoomObject) : ClientSync × List ClientEmit :=
  ({ c with objects := c.objects ++ [obj] },
   if c.hasSocket && c.isConnected then [.createObject obj] else [])

/-- Models `updateObjectLocal` (useRoomSync.ts lines 148-154): overwrite `x`/`y` of
    the object whose id matches, leave every other object alone. -/
def updateObjectLocal (c : ClientSync) (objectId : String)
    (position : ObjectPosition) : ClientSync :=
  { c with
    objects := c.objects.map (fun o =>
      if o.id = objectId then { o with x := position.x, y := position.y } else o) }

/-- The `socket.on('room_state')` handler (useRoomSync.ts lines 63-65). -/
def handleRoomState (c : ClientSync) (roomObjects : List RoomObject) : ClientSync :=
  { c with objects := roomObjects }

/-- The `socket.on('object_updated')` handler (useRoomSync.ts lines 71-79). -/
def handleObjectUpdated (c : ClientSync) (objectId : String)
    (position : ObjectPosition) : ClientSync :=
  { c with
    objects := c.objects.map (fun o =>
      if o.id = objectId then { o with x := position.x, y := position.y } else o) }

/-- The `socket.on('object_created')` handler (useRoomSync.ts lines 84-86). -/
def handleObjectCreated (c : ClientSync) (obj : RoomObject) : ClientSync :=
  { c with objects := c.objects ++ [obj] }

/-- The drag-move path of `TacticsMap.tsx` (lines 87-90): `updateObjectLocal`
    immediately, then `emitUpdateObject` — the spec's `updateLocalThrottled`. -/
def updateLocalThrottled (now : Int) (c : ClientSync) (objectId : String)
    (position : ObjectPosition) : ClientSync × List ClientEmit :=
  emitUpdateObject now (updateObjectLocal c objectId position) objectId position

/-! ## The history manager (`useCanvasHistory` hook)

Snapshots are full copies of the `CanvasObject[]` canvas state; the algorithm
never inspects an individual object. -/

/-- The `CanvasObject` union of `canvas-objects.ts` (pencil, line, circle,
    rectangle, text, catapult), with JS numbers embedded as `Int`. -/
inductive CanvasObject where
  | pencil (id : String) (x y : Int) (points : List Int) (stroke : String) (strokeWidth : Int)
  | line (id : String) (x y : Int) (points : List Int) (stroke : String) (strokeWidth : Int)
  | circle (id : String) (x y : Int) (radius : Int) (fill stroke : String) (strokeWidth : Int)
  | rectangle (id : String) (x y : Int) (width height : Int) (fill stroke : String)
      (strokeWidth : Int)
  | text (id : String) (x y : Int) (content : String) (fontSize : Int) (fill : String)
  | catapult (id : String) (x y : Int)
deriving Repr, DecidableEq

/-- Models `MAX_HISTORY_SIZE` (line 185 of the combined canvas-objects source). -/
def MAX_HISTORY_SIZE : Nat := 20

/-- JS `array.slice(-n)` for `n > 0`: the last `n` elements. -/
def jsSliceLast {α : Type} (n : Nat) (l : List α) : List α :=
  l.drop (l.length - n)

/-- The mutable state of `useCanvasHistory`: current `objects`, `undoStackRef`
    and `redoStackRef` (last element = top of stack). -/
structure CanvasHistory where
  objects : List CanvasObject
  undoStack : List (List CanvasObject)
  redoStack : List (List CanvasObject)
deriving Repr, DecidableEq

/-- Models `useCanvasHistory(initialObjects)`: both stacks start empty. -/
def initialHistory (initialObjects : List CanvasObject) : CanvasHistory :=
  ⟨initialObjects, [], []⟩

/-- Models `pushState` (lines 266-279): push the pre-change snapshot onto Undo,
    keeping only the last `MAX_HISTORY_SIZE - 1` older entries
    (`slice(-(MAX_HISTORY_SIZE - 1))`), clear Redo, install the new state. -/
def pushState (h : CanvasHistory) (newObjects : List CanvasObject) : CanvasHistory :=
  { objects := newObjects
    undoStack := jsSliceLast (MAX_HISTORY_SIZE - 1) h.undoStack ++ [h.objects]
    redoStack := [] }

/-- Models `undo` (lines 287-304): `null` on an empty Undo stack; otherwise pop the
    top snapshot, push the current state onto Redo, and install it. -/
def undo (h : CanvasHistory) : Option (List CanvasObject) × CanvasHistory :=
  if h.undoStack.length = 0 then (none, h)
  else
    let previousState := h.undoStack.getLast?.getD []
    (some previousState,
     { objects := previousState
       undoStack := h.undoStack.dropLast
       redoStack := h.redoStack ++ [h.objects] })

/-- Models `redo` (lines 312-329): the mirror of `undo`. -/
def redo (h : CanvasHistory) : Option (List CanvasObject) × CanvasHistory :=
  if h.redoStack.length = 0 then (none, h)
  else
    let nextState := h.redoStack.getLast?.getD []
    (some nextState,
     { objects := nextState
       undoStack := h.undoStack ++ [h.objects]
       redoStack := h.redoStack.dropLast })

/-- Models `setObjectsWithoutHistory` (lines 336-338): install the state, touch
    neither stack. -/
def setObjectsWithoutHistory (h : CanvasHistory) (newObjects : List CanvasObject) :
    CanvasHistory :=
  { h with objects := newObjects }

/-- Models `clearHistory` (lines 344-348). -/
def clearHistory (h : CanvasHistory) : CanvasHistory :=
  { h with undoStack := [], redoStack := [] }

/-- Models `canUndo` as returned by the hook: `undoStackRef.current.length > 0`. -/
def canUndo (h : CanvasHistory) : Bool :=
  decide (0 < h.undoStack.length)

/-- Models `canRedo` as returned by the hook: `redoStackRef.current.length > 0`. -/
def canRedo (h : CanvasHistory) : Bool :=
  decide (0 < h.redoStack.length)

/-- The `DrawingCanvas.tsx` external-objects effect (lines 78-82): when
    `externalObjects` is present (server-originated state), install it via
    `setObjectsWithoutHistory`; otherwise do nothing. -/
def applyExternalObjects (h : CanvasHistory) (externalObjects : Option (List CanvasObject)) :
    CanvasHistory :=
  match externalObjects with
  | some objs => setObjectsWithoutHistory h objs
  | none => h

/-- The five public history operations of §4.4. -/
inductive HistoryOp where
  | push (s : List CanvasObject)
  | doUndo
  | doRedo
  | replace (s : List CanvasObject)
  | clear
deriving Repr, DecidableEq

/-- Apply one history operation (return values of `undo`/`redo` discarded). -/
def applyHistoryOp (h : CanvasHistory) : HistoryOp → CanvasHistory
  | .push s => pushState h s
  | .doUndo => (undo h).2
  | .doRedo => (redo h).2
  | .replace s => setObjectsWithoutHistory h s
  | .clear => clearHistory h

/-- Run a sequence of history operations from the initial hook state. -/
def runHistory (initialObjects : List CanvasObject) (ops : List HistoryOp) : CanvasHistory :=
  ops.foldl applyHistoryOp (initialHistory initialObjects)

/-! ## Store operations for the model-based equivalence (§8) -/

/-- One create/update/delete operation against a fixed room. -/
inductive StoreOp where
  | create (obj : RoomObject)
  | update (objectId : String) (position : ObjectPosition)
  | delete (objectId : String)
deriving Repr, DecidableEq

/-- Apply one operation to the store through the `RoomManager` methods. -/
def applyStoreOp (roomId : String) (m : RoomManager) : StoreOp → RoomManager
  | .create obj => addObject m roomId obj
  | .update objectId position => (updateObjectPosition m roomId objectId position).2
  | .delete objectId => (deleteObject m roomId objectId).2

/-- Run a sequence of operations from an empty store. -/
def runStoreOps (roomId : String) (ops : List StoreOp) : RoomManager :=
  ops.foldl (applyStoreOp roomId) emptyManager

/-- One step of the reference in-memory map (id → object) the spec folds the
    same operations over: create inserts/overwrites, update rewrites `x`/`y`
    when the id is bound, delete unbinds the id. -/
def refStep (f : String → Option RoomObject) : StoreOp → String → Option RoomObject
  | .create obj => fun k => if k = obj.id then some obj else f k
  | .update objectId position => fun k =>
      if k = objectId then
        (f objectId).map (fun o => { o with x := position.x, y := position.y })
      else f k
  | .delete objectId => fun k => if k = objectId then none else f k

/-- Fold a sequence of operations over the empty reference map. -/
def refRun (ops : List StoreOp) : String → Option RoomObject :=
  ops.foldl refStep (fun _ => none)

/-! ## Association-list lemmas -/

section KVLemmas

variable {α : Type}

theorem getKV_nil (k : String) : getKV ([] : List (String × α)) k = none := rfl

theorem getKV_cons (k' : String) (v' : α) (rest : List (String × α)) (k : String) :
    getKV ((k', v') :: rest) k = if k' = k then some v' else getKV rest k := by
  simp only [getKV, List.find?_cons]
  by_cases h : k' = k
  · simp [h]
  · simp [h, beq_eq_false_iff_ne.mpr h]

theorem getKV_setKV_self (l : List (String × α)) (k : String) (v : α) :
    getKV (setKV l k v) k = some v := by
  induction l with
  | nil => simp [setKV, getKV_cons]
  | cons p rest ih =>
    obtain ⟨k', v'⟩ := p
    by_cases h : k' = k
    · simp [setKV, h, getKV_cons]
    · simp [setKV, h, getKV_cons, ih]

theorem getKV_setKV_ne (l : List (String × α)) (k k' : String) (v : α) (h : k' ≠ k) :
    getKV (setKV l k v) k' = getKV l k' := by
  induction l with
  | nil =>
    rw [getKV_nil]
    simp only [setKV, getKV_cons, getKV_nil]
    rw [if_neg (fun hc => h hc.symm)]
  | cons p rest ih =>
    obtain ⟨k1, v1⟩ := p
    by_cases hp : k1 = k
    · have hne : ¬ k1 = k' := fun hc => h (hc.symm.trans hp)
      simp only [setKV, if_pos hp, getKV_cons, if_neg hne]
    · simp only [setKV, if_neg hp, getKV_cons, ih]

theorem setKV_getKV_self (l : List (String × α)) (k : String) (v : α)
    (h : getKV l k = some v) : setKV l k v = l := by
  induction l with
  | nil => simp [getKV_nil] at h
  | cons p rest ih =>
    obtain ⟨k1, v1⟩ := p
    rw [getKV_cons] at h
    by_cases hp : k1 = k
    · rw [if_pos hp] at h
      cases h
      simp [setKV, hp]
    · rw [if_neg hp] at h
      simp [setKV, hp, ih h]

theorem keysNotMem_of_getKV_none (l : List (String × α)) (k : String)
    (h : getKV l k = none) : k ∉ l.map Prod.fst := by
  induction l with
  | nil => simp
  | cons p rest ih =>
    obtain ⟨k1, v1⟩ := p
    rw [getKV_cons] at h
    by_cases hp : k1 = k
    · simp [hp] at h
    · rw [if_neg hp] at h
      simp only [List.map_cons, List.mem_cons]
      rintro (rfl | hm)
      · exact hp rfl
      · exact ih h hm

theorem getKV_none_of_keysNotMem (l : List (String × α)) (k : String)
    (h : k ∉ l.map Prod.fst) : getKV l k = none := by
  induction l with
  | nil => rfl
  | cons p rest ih =>
    obtain ⟨k1, v1⟩ := p
    simp only [List.map_cons, List.mem_cons] at h
    push_neg at h
    rw [getKV_cons, if_neg (fun hc => h.1 hc.symm), ih h.2]

theorem delKV_getKV_none (l : List (String × α)) (k : String)
    (h : getKV l k = none) : delKV l k = l := by
  induction l with
  | nil => rfl
  | cons p rest ih =>
    obtain ⟨k1, v1⟩ := p
    rw [getKV_cons] at h
    by_cases hp : k1 = k
    · simp [hp] at h
    · rw [if_neg hp] at h
      simp [delKV, hp, ih h]

theorem getKV_delKV_ne (l : List (String × α)) (k k' : String) (h : k' ≠ k) :
    getKV (delKV l k) k' = getKV l k' := by
  induction l with
  | nil => rfl
  | cons p rest ih =>
    obtain ⟨k1, v1⟩ := p
    by_cases hp : k1 = k
    · rw [getKV_cons]
      simp only [delKV, if_pos hp]
      rw [if_neg (fun hc : k1 = k' => h ((hc.symm.trans hp)))]
    · simp only [delKV, if_neg hp, getKV_cons, ih]

theorem delKV_sublist (l : List (String × α)) (k : String) :
    List.Sublist (delKV l k) l := by
  induction l with
  | nil => exact List.Sublist.refl _
  | cons p rest ih =>
    obtain ⟨k1, v1⟩ := p
    by_cases hp : k1 = k
    · simp only [delKV, if_pos hp]
      exact List.Sublist.cons _ (List.Sublist.refl rest)
    · simp only [delKV, if_neg hp]
      exact List.Sublist.cons₂ _ ih

theorem getKV_delKV_self (l : List (String × α)) (k : String)
    (h : (l.map Prod.fst).Nodup) : getKV (delKV l k) k = none := by
  induction l with
  | nil => rfl
  | cons p rest ih =>
    obtain ⟨k1, v1⟩ := p
    simp only [List.map_cons, List.nodup_cons] at h
    by_cases hp : k1 = k
    · simp only [delKV, if_pos hp]
      exact getKV_none_of_keysNotMem rest k (hp ▸ h.1)
    · simp only [delKV, if_neg hp]
      rw [getKV_cons, if_neg hp, ih h.2]

theorem mem_setKV (l : List (String × α)) (k : String) (v : α) (p : String × α)
    (h : p ∈ setKV l k v) : p ∈ l ∨ p = (k, v) := by
  induction l with
  | nil =>
    simp only [setKV, List.mem_singleton] at h
    exact Or.inr h
  | cons q rest ih =>
    obtain ⟨k1, v1⟩ := q
    by_cases hq : k1 = k
    · simp only [setKV, if_pos hq, List.mem_cons] at h
      rcases h with rfl | h
      · exact Or.inr (by rw [hq])
      · exact Or.inl (List.mem_cons_of_mem _ h)
    · simp only [setKV, if_neg hq, List.mem_cons] at h
      rcases h with rfl | h
      · exact Or.inl (List.mem_cons_self _ _)
      · rcases ih h with h' | h'
        · exact Or.inl (List.mem_cons_of_mem _ h')
        · exact Or.inr h'

theorem keys_setKV (l : List (String × α)) (k : String) (v : α) :
    (setKV l k v).map Prod.fst =
      if (getKV l k).isSome then l.map Prod.fst else l.map Prod.fst ++ [k] := by
  induction l with
  | nil => simp [setKV, getKV_nil]
  | cons p rest ih =>
    obtain ⟨k1, v1⟩ := p
    by_cases hp : k1 = k
    · simp [setKV, hp, getKV_cons]
    · rw [getKV_cons, if_neg hp]
      simp only [setKV, if_neg hp, List.map_cons, ih]
      by_cases hs : (getKV rest k).isSome
      · simp [hs]
      · simp [hs]

theorem nodupKeys_setKV (l : List (String × α)) (k : String) (v : α)
    (h : (l.map Prod.fst).Nodup) : ((setKV l k v).map Prod.fst).Nodup := by
  rw [keys_setKV]
  by_cases hs : (getKV l k).isSome
  · simpa [hs]
  · rw [if_neg hs]
    have hnone : getKV l k = none := Option.not_isSome_iff_eq_none.mp hs
    have hnm := keysNotMem_of_getKV_none l k hnone
    simp [List.nodup_append, h, hnm]

theorem nodupKeys_delKV (l : List (String × α)) (k : String)
    (h : (l.map Prod.fst).Nodup) : ((delKV l k).map Prod.fst).Nodup :=
  h.sublist ((delKV_sublist l k).map Prod.fst)

theorem mem_delKV (l : List (String × α)) (k : String) (p : String × α)
    (h : p ∈ delKV l k) : p ∈ l :=
  (delKV_sublist l k).mem h

theorem getKV_some_mem (l : List (String × α)) (k : String) (v : α)
    (h : getKV l k = some v) : (k, v) ∈ l := by
  unfold getKV at h
  cases hf : l.find? (fun p => p.1 == k) with
  | none => rw [hf] at h; simp at h
  | some p =>
    rw [hf] at h
    obtain ⟨k1, v1⟩ := p
    have hm := List.mem_of_find?_eq_some hf
    have hk : k1 = k := by simpa using List.find?_some hf
    have hv : v1 = v := by simpa using h
    subst hk
    subst hv
    exact hm

end KVLemmas

/-! ## Store well-formedness and the reference-map bridge -/

/-- Keys of an embedded JS `Map` are unique (true of every real `Map`). -/
def KeysNodup {α : Type} (l : List (String × α)) : Prop :=
  (l.map Prod.fst).Nodup

/-- Every object in a room map is stored under its own id (`addObject` keys
    entries by `object.id`). -/
def ObjKeysMatch (l : List (String × RoomObject)) : Prop :=
  ∀ p ∈ l, p.1 = p.2.id

/-- Well-formedness of the whole store: each room's object map has unique keys,
    each keyed by the object's id. -/
def StoreWF (m : RoomManager) : Prop :=
  ∀ p ∈ m.rooms, KeysNodup p.2.objects ∧ ObjKeysMatch p.2.objects

theorem storeWF_empty : StoreWF emptyManager := by
  intro p hp
  exact absurd hp (List.not_mem_nil p)

theorem storeWF_room (m : RoomManager) (rid : String) (room : RoomState)
    (hwf : StoreWF m) (h : getKV m.rooms rid = some room) :
    KeysNodup room.objects ∧ ObjKeysMatch room.objects :=
  hwf (rid, room) (getKV_some_mem m.rooms rid room h)

theorem getOrCreateRoom_of_some (m : RoomManager) (rid : String) (room : RoomState)
    (h : getKV m.rooms rid = some room) : getOrCreateRoom m rid = (m, room) := by
  simp [getOrCreateRoom, hasKV, h]

theorem getOrCreateRoom_of_none (m : RoomManager) (rid : String)
    (h : getKV m.rooms rid = none) :
    getOrCreateRoom m rid = (⟨setKV m.rooms rid ⟨rid, []⟩⟩, ⟨rid, []⟩) := by
  simp [getOrCreateRoom, hasKV, h, getKV_setKV_self]

theorem addObject_of_some (m : RoomManager) (rid : String) (room : RoomState)
    (obj : RoomObject) (h : getKV m.rooms rid = some room) :
    addObject m rid obj =
      ⟨setKV m.rooms rid { room with objects := setKV room.objects obj.id obj }⟩ := by
  simp [addObject, getOrCreateRoom_of_some m rid room h]

theorem addObject_of_none (m : RoomManager) (rid : String) (obj : RoomObject)
    (h : getKV m.rooms rid = none) :
    addObject m rid obj =
      ⟨setKV (setKV m.rooms rid ⟨rid, []⟩) rid ⟨rid, [(obj.id, obj)]⟩⟩ := by
  simp [addObject, getOrCreateRoom_of_none m rid h, setKV]

theorem roomLookup_addObject (m : RoomManager) (rid : String) (obj : RoomObject)
    (k : String) :
    roomLookup (addObject m rid obj) rid k =
      if k = obj.id then some obj else roomLookup m rid k := by
  cases hr : getKV m.rooms rid with
  | none =>
    rw [addObject_of_none m rid obj hr]
    by_cases hk : k = obj.id
    · simp [roomLookup, getKV_setKV_self, hk, getKV_cons]
    · have hne : ¬ obj.id = k := fun hc => hk hc.symm
      simp [roomLookup, getKV_setKV_self, hk, getKV_cons, getKV_nil, hr, hne]
  | some room =>
    rw [addObject_of_some m rid room obj hr]
    by_cases hk : k = obj.id
    · simp [roomLookup, getKV_setKV_self, hk]
    · simp [roomLookup, getKV_setKV_self, hk, hr, getKV_setKV_ne _ _ _ _ hk]

theorem roomLookup_updateObjectPosition (m : RoomManager) (rid oid : String)
    (pos : ObjectPosition) (k : String) :
    roomLookup (updateObjectPosition m rid oid pos).2 rid k =
      if k = oid then
        (roomLookup m rid oid).map (fun o => { o with x := pos.x, y := pos.y })
      else roomLookup m rid k := by
  cases hr : getKV m.rooms rid with
  | none =>
    by_cases hk : k = oid <;>
      simp [updateObjectPosition, roomLookup, hr, hk]
  | some room =>
    cases ho : getKV room.objects oid with
    | none =>
      by_cases hk : k = oid <;>
        simp [updateObjectPosition, roomLookup, hr, ho, hk]
    | some obj =>
      by_cases hk : k = oid
      · simp [updateObjectPosition, roomLookup, hr, ho, hk, getKV_setKV_self]
      · simp [updateObjectPosition, roomLookup, hr, ho, hk, getKV_setKV_self,
          getKV_setKV_ne _ _ _ _ hk]

theorem roomLookup_deleteObject (m : RoomManager) (rid oid : String) (k : String)
    (hwf : StoreWF m) :
    roomLookup (deleteObject m rid oid).2 rid k =
      if k = oid then none else roomLookup m rid k := by
  cases hr : getKV m.rooms rid with
  | none =>
    by_cases hk : k = oid <;> simp [deleteObject, roomLookup, hr, hk]
  | some room =>
    have hnd := (storeWF_room m rid room hwf hr).1
    by_cases hk : k = oid
    · simp [deleteObject, roomLookup, hr, hk, getKV_setKV_self,
        getKV_delKV_self room.objects oid hnd]
    · simp [deleteObject, roomLookup, hr, hk, getKV_setKV_self,
        getKV_delKV_ne _ _ _ hk]

theorem objKeysMatch_setKV_obj (l : List (String × RoomObject)) (obj : RoomObject)
    (h : ObjKeysMatch l) : ObjKeysMatch (setKV l obj.id obj) := by
  intro p hp
  rcases mem_setKV l obj.id obj p hp with hm | rfl
  · exact h p hm
  · rfl

theorem storeWF_setRoom (m : RoomManager) (rid : String) (room : RoomState)
    (hwf : StoreWF m) (hnd : KeysNodup room.objects) (hmt : ObjKeysMatch room.objects) :
    StoreWF (⟨setKV m.rooms rid room⟩ : RoomManager) := by
  intro p hp
  rcases mem_setKV m.rooms rid room p hp with hm | rfl
  · exact hwf p hm
  · exact ⟨hnd, hmt⟩

theorem storeWF_addObject (m : RoomManager) (rid : String) (obj : RoomObject)
    (hwf : StoreWF m) : StoreWF (addObject m rid obj) := by
  cases hr : getKV m.rooms rid with
  | none =>
    rw [addObject_of_none m rid obj hr]
    apply storeWF_setRoom
    · apply storeWF_setRoom m rid ⟨rid, []⟩ hwf
      · simp [KeysNodup]
      · intro p hp; simp at hp
    · simp [KeysNodup]
    · intro p hp
      simp only [List.mem_singleton] at hp
      subst hp
      rfl
  | some room =>
    rw [addObject_of_some m rid room obj hr]
    have hw := storeWF_room m rid room hwf hr
    exact storeWF_setRoom m rid { room with objects := setKV room.objects obj.id obj }
      hwf (nodupKeys_setKV _ _ _ hw.1) (objKeysMatch_setKV_obj _ _ hw.2)

theorem storeWF_updateObjectPosition (m : RoomManager) (rid oid : String)
    (pos : ObjectPosition) (hwf : StoreWF m) :
    StoreWF (updateObjectPosition m rid oid pos).2 := by
  cases hr : getKV m.rooms rid with
  | none => simpa [updateObjectPosition, hr] using hwf
  | some room =>
    cases ho : getKV room.objects oid with
    | none => simpa [updateObjectPosition, hr, ho] using hwf
    | some obj =>
      have hw := storeWF_room m rid room hwf hr
      have hid : oid = obj.id := hw.2 (oid, obj) (getKV_some_mem _ _ _ ho)
      simp only [updateObjectPosition, hr, ho]
      apply storeWF_setRoom m rid
        { room with objects := setKV room.objects oid { obj with x := pos.x, y := pos.y } }
        hwf (nodupKeys_setKV _ _ _ hw.1)
      intro p hp
      rcases mem_setKV _ _ _ p hp with hm | rfl
      · exact hw.2 p hm
      · exact hid

theorem storeWF_deleteObject (m : RoomManager) (rid oid : String)
    (hwf : StoreWF m) : StoreWF (deleteObject m rid oid).2 := by
  cases hr : getKV m.rooms rid with
  | none => simpa [deleteObject, hr] using hwf
  | some room =>
    have hw := storeWF_room m rid room hwf hr
    simp only [deleteObject, hr]
    apply storeWF_setRoom m rid { room with objects := delKV room.objects oid }
      hwf (nodupKeys_delKV _ _ hw.1)
    intro p hp
    exact hw.2 p (mem_delKV _ _ p hp)

theorem storeWF_applyStoreOp (rid : String) (m : RoomManager) (op : StoreOp)
    (hwf : StoreWF m) : StoreWF (applyStoreOp rid m op) := by
  cases op with
  | create obj => exact storeWF_addObject m rid obj hwf
  | update oid pos => exact storeWF_updateObjectPosition m rid oid pos hwf
  | delete oid => exact storeWF_deleteObject m rid oid hwf

theorem roomLookup_applyStoreOp (rid : String) (m : RoomManager) (op : StoreOp)
    (hwf : StoreWF m) (k : String) :
    roomLookup (applyStoreOp rid m op) rid k =
      refStep (fun j => roomLookup m rid j) op k := by
  cases op with
  | create obj => exact roomLookup_addObject m rid obj k
  | update oid pos => exact roomLookup_updateObjectPosition m rid oid pos k
  | delete oid => exact roomLookup_deleteObject m rid oid k hwf

theorem roomLookup_foldl (rid : String) (ops : List StoreOp) :
    ∀ m : RoomManager, StoreWF m → ∀ k : String,
      roomLookup (ops.foldl (applyStoreOp rid) m) rid k =
        ops.foldl refStep (fun j => roomLookup m rid j) k := by
  induction ops with
  | nil => intro m _ k; rfl
  | cons op rest ih =>
    intro m hwf k
    rw [List.foldl_cons, List.foldl_cons,
      ih (applyStoreOp rid m op) (storeWF_applyStoreOp rid m op hwf) k]
    have hfe : (fun j => roomLookup (applyStoreOp rid m op) rid j)
        = refStep (fun j => roomLookup m rid j) op :=
      funext fun j => roomLookup_applyStoreOp rid m op hwf j
    rw [hfe]

theorem storeWF_foldl (rid : String) (ops : List StoreOp) :
    ∀ m : RoomManager, StoreWF m → StoreWF (ops.foldl (applyStoreOp rid) m) := by
  induction ops with
  | nil => intro m hwf; exact hwf
  | cons op rest ih =>
    intro m hwf
    exact ih _ (storeWF_applyStoreOp rid m op hwf)

theorem find_values_eq_getKV (l : List (String × RoomObject))
    (hmt : ObjKeysMatch l) (k : String) :
    (l.map (fun p => p.2)).find? (fun o => o.id == k) = getKV l k := by
  induction l with
  | nil => rfl
  | cons p rest ih =>
    obtain ⟨k1, v1⟩ := p
    have hid : k1 = v1.id := hmt (k1, v1) (List.mem_cons_self _ _)
    have hrest : ObjKeysMatch rest := fun q hq => hmt q (List.mem_cons_of_mem _ hq)
    rw [List.map_cons, getKV_cons]
    by_cases hk : k1 = k
    · have hb : (v1.id == k) = true := by
        rw [← hid]
        exact beq_iff_eq.mpr hk
      rw [if_pos hk]
      show List.find? (fun o => o.id == k) (v1 :: List.map (fun p => p.2) rest) = some v1
      exact List.find?_cons_of_pos _ hb
    · have hb : ¬ ((v1.id == k) = true) := by
        rw [← hid]
        simpa using hk
      rw [if_neg hk]
      show List.find? (fun o => o.id == k) (v1 :: List.map (fun p => p.2) rest) = getKV rest k
      have hstep : List.find? (fun o => o.id == k) (v1 :: List.map (fun p => p.2) rest)
          = List.find? (fun o => o.id == k) (List.map (fun p => p.2) rest) :=
        List.find?_cons_of_neg _ hb
      rw [hstep]
      exact ih hrest

theorem getRoomObjects_find (m : RoomManager) (rid : String) (k : String)
    (hwf : StoreWF m) :
    (getRoomObjects m rid).find? (fun o => o.id == k) = roomLookup m rid k := by
  cases hr : getKV m.rooms rid with
  | none => simp [getRoomObjects, roomLookup, hr]
  | some room =>
    simp only [getRoomObjects, roomLookup, hr, Option.bind_some]
    exact find_values_eq_getKV room.objects (storeWF_room m rid room hwf hr).2 k

/-! ## Further helper lemmas -/

theorem ne_of_mem_roomMembersExcept (membership : List (String × String))
    (rid sender r : String) (h : r ∈ roomMembersExcept membership rid sender) :
    r ≠ sender := by
  unfold roomMembersExcept at h
  simp only [List.mem_map, List.mem_filter] at h
  obtain ⟨p, ⟨_, hcond⟩, rfl⟩ := h
  simp only [Bool.and_eq_true, bne_iff_ne, ne_eq, beq_iff_eq] at hcond
  exact hcond.2

theorem map_id_of_unmatched (l : List RoomObject) (oid : String)
    (pos : ObjectPosition) (h : ∀ o ∈ l, o.id ≠ oid) :
    l.map (fun o => if o.id = oid then { o with x := pos.x, y := pos.y } else o) = l := by
  have hcong : ∀ o ∈ l,
      (fun o => if o.id = oid then { o with x := pos.x, y := pos.y } else o) o = o :=
    fun o ho => by simp [h o ho]
  rw [List.map_congr_left hcong]
  exact List.map_id l

theorem undo_pushState (h : CanvasHistory) (s : List CanvasObject) :
    undo (pushState h s) =
      (some h.objects,
       ⟨h.objects, jsSliceLast (MAX_HISTORY_SIZE - 1) h.undoStack, [s]⟩) := by
  unfold pushState undo
  simp [List.getLast?_concat, List.dropLast_concat]

theorem jsSliceLast_length_le {α : Type} (n : Nat) (l : List α) :
    (jsSliceLast n l).length ≤ n := by
  simp only [jsSliceLast, List.length_drop]
  omega

/-- The inductive invariant behind the capacity bound: the two stacks hold at
    most `MAX_HISTORY_SIZE` snapshots in total. -/
def historyBounded (h : CanvasHistory) : Prop :=
  h.undoStack.length + h.redoStack.length ≤ MAX_HISTORY_SIZE

theorem historyBounded_apply (h : CanvasHistory) (op : HistoryOp)
    (hb : historyBounded h) : historyBounded (applyHistoryOp h op) := by
  cases op with
  | push s =>
    have hs := jsSliceLast_length_le (MAX_HISTORY_SIZE - 1) h.undoStack
    simp only [applyHistoryOp, pushState, historyBounded, List.length_append,
      List.length_nil, List.length_cons] at *
    simp only [MAX_HISTORY_SIZE] at *
    omega
  | doUndo =>
    by_cases he : h.undoStack.length = 0
    · simp only [applyHistoryOp, undo, if_pos he]
      exact hb
    · simp only [applyHistoryOp, undo, if_neg he, historyBounded,
        List.length_dropLast, List.length_append, List.length_cons,
        List.length_nil] at *
      omega
  | doRedo =>
    by_cases he : h.redoStack.length = 0
    · simp only [applyHistoryOp, redo, if_pos he]
      exact hb
    · simp only [applyHistoryOp, redo, if_neg he, historyBounded,
        List.length_dropLast, List.length_append, List.length_cons,
        List.length_nil] at *
      omega
  | replace s => exact hb
  | clear =>
    simp [applyHistoryOp, clearHistory, historyBounded]

theorem historyBounded_foldl (ops : List HistoryOp) :
    ∀ h : CanvasHistory, historyBounded h →
      historyBounded (ops.foldl applyHistoryOp h) := by
  induction ops with
  | nil => intro h hb; exact hb
  | cons op rest ih =>
    intro h hb
    exact ih _ (historyBounded_apply h op hb)

/-! ## The claims -/

/-- C2: for every finite sequence of create/update/delete operations applied to
    a single room through the `RoomManager`, looking any object id up in
    `getRoomObjects` after the sequence gives exactly what folding the same
    sequence over a reference in-memory map from id to object gives. -/
theorem store_refines_reference_map (rid : String) (ops : List StoreOp) (k : String) :
    (getRoomObjects (runStoreOps rid ops) rid).find? (fun o => o.id == k) =
      refRun ops k := by
  have hwf : StoreWF (runStoreOps rid ops) :=
    storeWF_foldl rid ops emptyManager storeWF_empty
  rw [getRoomObjects_find _ _ _ hwf]
  show roomLookup (ops.foldl (applyStoreOp rid) emptyManager) rid k = refRun ops k
  rw [roomLookup_foldl rid ops emptyManager storeWF_empty k]
  rfl

/-- C3: `updateObjectPosition` and `deleteObject` on a missing room or missing
    object id return `false` and leave the entire store untouched (both are
    total Lean functions, so no exception can be raised). -/
theorem missing_entity_is_noop (m : RoomManager) (rid oid : String)
    (pos : ObjectPosition) (h : roomLookup m rid oid = none) :
    updateObjectPosition m rid oid pos = (false, m)
    ∧ deleteObject m rid oid = (false, m) := by
  cases hr : getKV m.rooms rid with
  | none =>
    constructor
    · simp [updateObjectPosition, hr]
    · simp [deleteObject, hr]
  | some room =>
    have ho : getKV room.objects oid = none := by
      simpa [roomLookup, hr] using h
    constructor
    · simp [updateObjectPosition, hr, ho]
    · simp only [deleteObject, hr, hasKV, ho, Option.isSome_none]
      rw [delKV_getKV_none _ _ ho]
      have hrm : ({ room with objects := room.objects } : RoomState) = room := rfl
      rw [hrm, setKV_getKV_self _ _ _ hr]

/-- Witness for C3 at a concrete input: the empty store. -/
theorem missing_entity_is_noop_witness :
    roomLookup emptyManager "r" "o" = none
    ∧ updateObjectPosition emptyManager "r" "o" ⟨1, 2⟩ = (false, emptyManager)
    ∧ deleteObject emptyManager "r" "o" = (false, emptyManager) :=
  ⟨rfl,
   (missing_entity_is_noop emptyManager "r" "o" ⟨1, 2⟩ rfl).1,
   (missing_entity_is_noop emptyManager "r" "o" ⟨1, 2⟩ rfl).2⟩

/-- C9: a socket that never performed `join_room` (no `data.roomId` recorded)
    cannot mutate any room: `update_object` and `create_object` from it leave
    the whole relay state unchanged and produce no outbound message at all —
    in particular no error reply to the sender. -/
theorem unjoined_socket_cannot_mutate (st : ServerState) (sender oid : String)
    (pos : ObjectPosition) (obj : RoomObject)
    (h : getKV st.socketRoom sender = none) :
    handleEvent st sender (.updateObject oid pos) = (st, [])
    ∧ handleEvent st sender (.createObject obj) = (st, []) := by
  constructor
  · simp [handleEvent, jsRoomId, h]
  · simp [handleEvent, jsRoomId, h]

/-- Witness for C9: a fresh server and a socket that never joined. -/
theorem unjoined_socket_cannot_mutate_witness :
    getKV initialServer.socketRoom "s9" = none
    ∧ handleEvent initialServer "s9" (.updateObject "o" ⟨3, 4⟩) = (initialServer, [])
    ∧ handleEvent initialServer "s9" (.createObject ⟨"o", 3, 4, "catapult"⟩)
        = (initialServer, []) :=
  ⟨rfl,
   (unjoined_socket_cannot_mutate initialServer "s9" "o" ⟨3, 4⟩
      ⟨"o", 3, 4, "catapult"⟩ rfl).1,
   (unjoined_socket_cannot_mutate initialServer "s9" "o" ⟨3, 4⟩
      ⟨"o", 3, 4, "catapult"⟩ rfl).2⟩

/-- C10: an inbound `object_updated` event — and likewise a local
    `updateObjectLocal` call — whose object id matches no object in the local
    list leaves the list entirely unchanged: nothing is appended and the whole
    client state is returned as it was (silent ignore; totality rules out an
    exception). -/
theorem unknown_id_update_ignored (c : ClientSync) (oid : String)
    (pos : ObjectPosition) (h : ∀ o ∈ c.objects, o.id ≠ oid) :
    handleObjectUpdated c oid pos = c ∧ updateObjectLocal c oid pos = c := by
  have hmap := map_id_of_unmatched c.objects oid pos h
  constructor
  · simp only [handleObjectUpdated, hmap]
  · simp only [updateObjectLocal, hmap]

/-- Witness for C10: a client holding only an object `"a"` receives an update
    for the unknown id `"b"`. -/
theorem unknown_id_update_ignored_witness :
    (∀ o ∈ (connectedClient [⟨"a", 0, 0, "catapult"⟩]).objects, o.id ≠ "b")
    ∧ handleObjectUpdated (connectedClient [⟨"a", 0, 0, "catapult"⟩]) "b" ⟨7, 8⟩
        = connectedClient [⟨"a", 0, 0, "catapult"⟩]
    ∧ updateObjectLocal (connectedClient [⟨"a", 0, 0, "catapult"⟩]) "b" ⟨7, 8⟩
        = connectedClient [⟨"a", 0, 0, "catapult"⟩] :=
  ⟨by decide,
   (unknown_id_update_ignored (connectedClient [⟨"a", 0, 0, "catapult"⟩]) "b" ⟨7, 8⟩
      (by decide)).1,
   (unknown_id_update_ignored (connectedClient [⟨"a", 0, 0, "catapult"⟩]) "b" ⟨7, 8⟩
      (by decide)).2⟩

/-- C4: the relay never echoes a mutation back to its originator — no message
    produced for a `create_object` or `update_object` event is addressed to
    the sender — and for `update_object` from a joined socket the broadcast is
    exactly the `object_updated` delta to the room minus the sender when
    `updateObjectPosition` returned `true`, and nothing at all when it
    returned `false`. -/
theorem relay_never_echoes_and_gates_updates (st : ServerState) (sender : String)
    (obj : RoomObject) (oid : String) (pos : ObjectPosition) :
    (∀ r msg, (r, msg) ∈ (handleEvent st sender (.createObject obj)).2 → r ≠ sender)
    ∧ (∀ r msg, (r, msg) ∈ (handleEvent st sender (.updateObject oid pos)).2 → r ≠ sender)
    ∧ (∀ rid, jsRoomId (getKV st.socketRoom sender) = some rid →
        (handleEvent st sender (.updateObject oid pos)).2 =
          if (updateObjectPosition st.manager rid oid pos).1 then
            (roomMembersExcept st.membership rid sender).map
              (fun s => (s, ServerMsg.objectUpdated oid pos))
          else []) := by
  refine ⟨?_, ?_, ?_⟩
  · intro r msg hm
    cases hj : jsRoomId (getKV st.socketRoom sender) with
    | none => simp [handleEvent, hj] at hm
    | some rid =>
      simp only [handleEvent, hj, List.mem_map] at hm
      obtain ⟨s, hs, heq⟩ := hm
      rw [Prod.mk.injEq] at heq
      exact heq.1 ▸ ne_of_mem_roomMembersExcept st.membership rid sender s hs
  · intro r msg hm
    cases hj : jsRoomId (getKV st.socketRoom sender) with
    | none => simp [handleEvent, hj] at hm
    | some rid =>
      by_cases hu : (updateObjectPosition st.manager rid oid pos).1
      · simp only [handleEvent, hj, hu, if_true, List.mem_map] at hm
        obtain ⟨s, hs, heq⟩ := hm
        rw [Prod.mk.injEq] at heq
        exact heq.1 ▸ ne_of_mem_roomMembersExcept st.membership rid sender s hs
      · simp [handleEvent, hj, hu] at hm
  · intro rid hj
    by_cases hu : (updateObjectPosition st.manager rid oid pos).1
    · simp [handleEvent, hj, hu]
    · simp [handleEvent, hj, hu]

/-- Witness for C4: two sockets joined to room `"r1"`, an object present, a
    successful update from `"s1"` — the broadcast goes to `"s2"` only, and the
    theorem instantiated there yields `"s2" ≠ "s1"` plus the gated broadcast
    shape. -/
theorem relay_never_echoes_and_gates_updates_witness :
    (let st1 := (handleEvent initialServer "s1" (.joinRoom "r1")).1
     let st2 := (handleEvent st1 "s2" (.joinRoom "r1")).1
     let st3 := (handleEvent st2 "s1" (.createObject ⟨"o1", 10, 10, "catapult"⟩)).1
     (handleEvent st3 "s1" (.updateObject "o1" ⟨50, 50⟩)).2
        = [("s2", ServerMsg.objectUpdated "o1" ⟨50, 50⟩)]
     ∧ ("s2" : String) ≠ "s1") := by
  refine ⟨by decide, ?_⟩
  exact
    ((relay_never_echoes_and_gates_updates
        (handleEvent ((handleEvent ((handleEvent initialServer "s1"
            (.joinRoom "r1")).1) "s2" (.joinRoom "r1")).1) "s1"
            (.createObject ⟨"o1", 10, 10, "catapult"⟩)).1
        "s1" ⟨"o1", 10, 10, "catapult"⟩ "o1" ⟨50, 50⟩).2.1
      "s2" (ServerMsg.objectUpdated "o1" ⟨50, 50⟩) (by decide))

/-- C5: from any history state, `pushState A; pushState B; undo` returns `A`
    and installs it as the current state; the following `redo` returns `B`;
    and a `pushState C` performed right after the `undo` empties the Redo
    stack, so a subsequent `redo` returns `none`. -/
theorem history_commit_undo_redo (h : CanvasHistory) (a b c : List CanvasObject) :
    (undo (pushState (pushState h a) b)).1 = some a
    ∧ (undo (pushState (pushState h a) b)).2.objects = a
    ∧ (redo (undo (pushState (pushState h a) b)).2).1 = some b
    ∧ (pushState (undo (pushState (pushState h a) b)).2 c).redoStack = []
    ∧ (redo (pushState (undo (pushState (pushState h a) b)).2 c)).1 = none := by
  rw [undo_pushState (pushState h a) b]
  refine ⟨rfl, rfl, ?_, rfl, ?_⟩
  · simp [redo]
  · simp [redo, pushState]

/-- C6: after any sequence of `pushState`/`undo`/`redo`/
    `setObjectsWithoutHistory`/`clearHistory` operations, each stack holds at
    most `MAX_HISTORY_SIZE = 20` snapshots; and committing 25 distinct states
    in a row from an empty canvas leaves an Undo stack of exactly the 20 most
    recent pre-change snapshots, the oldest 5 discarded. -/
theorem history_stacks_bounded :
    (∀ (init : List CanvasObject) (ops : List HistoryOp),
        (runHistory init ops).undoStack.length ≤ MAX_HISTORY_SIZE
        ∧ (runHistory init ops).redoStack.length ≤ MAX_HISTORY_SIZE)
    ∧ (runHistory [] ((List.range 25).map (fun i =>
          HistoryOp.push [CanvasObject.catapult "o" (Int.ofNat (i + 1)) 0]))).undoStack
        = (List.range 20).map (fun i =>
            [CanvasObject.catapult "o" (Int.ofNat (i + 5)) 0]) := by
  constructor
  · intro init ops
    have hb : historyBounded (runHistory init ops) :=
      historyBounded_foldl ops (initialHistory init) (by simp [historyBounded, initialHistory])
    unfold historyBounded at hb
    omega
  · decide

/-- C7: `setObjectsWithoutHistory` installs the new object list but preserves
    both stacks and hence `canUndo`/`canRedo` and both counts; the
    `DrawingCanvas` external-objects effect (the path taken by peer-originated
    and initial-sync state) is exactly this operation and so also leaves both
    stacks untouched. -/
theorem replace_without_history_preserves_stacks (h : CanvasHistory)
    (objs : List CanvasObject) (ext : Option (List CanvasObject)) :
    (setObjectsWithoutHistory h objs).objects = objs
    ∧ (setObjectsWithoutHistory h objs).undoStack = h.undoStack
    ∧ (setObjectsWithoutHistory h objs).redoStack = h.redoStack
    ∧ canUndo (setObjectsWithoutHistory h objs) = canUndo h
    ∧ canRedo (setObjectsWithoutHistory h objs) = canRedo h
    ∧ applyExternalObjects h ext =
        (match ext with
         | some o => setObjectsWithoutHistory h o
         | none => h)
    ∧ (applyExternalObjects h ext).undoStack = h.undoStack
    ∧ (applyExternalObjects h ext).redoStack = h.redoStack := by
  refine ⟨rfl, rfl, rfl, rfl, rfl, rfl, ?_, ?_⟩
  · cases ext <;> rfl
  · cases ext <;> rfl

/-- The drag-move path preserves `socketRef.current`. -/
theorem uLT_hasSocket (t : Int) (c : ClientSync) (oid : String) (p : ObjectPosition) :
    (updateLocalThrottled t c oid p).1.hasSocket = c.hasSocket := by
  unfold updateLocalThrottled emitUpdateObject updateObjectLocal
  by_cases hb : (!c.hasSocket || !c.isConnected) = true
  · simp [hb]
  · by_cases ht : THROTTLE_INTERVAL ≤ t - (getKV c.lastEmitTime oid).getD 0 <;>
      simp [hb, ht]

/-- The drag-move path preserves `isConnected`. -/
theorem uLT_isConnected (t : Int) (c : ClientSync) (oid : String) (p : ObjectPosition) :
    (updateLocalThrottled t c oid p).1.isConnected = c.isConnected := by
  unfold updateLocalThrottled emitUpdateObject updateObjectLocal
  by_cases hb : (!c.hasSocket || !c.isConnected) = true
  · simp [hb]
  · by_cases ht : THROTTLE_INTERVAL ≤ t - (getKV c.lastEmitTime oid).getD 0 <;>
      simp [hb, ht]

/-- The drag-move path always updates the local mirror immediately, whatever
    the connectivity or the throttle window. -/
theorem uLT_objects (t : Int) (c : ClientSync) (oid : String) (p : ObjectPosition) :
    (updateLocalThrottled t c oid p).1.objects =
      c.objects.map (fun o => if o.id = oid then { o with x := p.x, y := p.y } else o) := by
  unfold updateLocalThrottled emitUpdateObject updateObjectLocal
  by_cases hb : (!c.hasSocket || !c.isConnected) = true
  · simp [hb]
  · by_cases ht : THROTTLE_INTERVAL ≤ t - (getKV c.lastEmitTime oid).getD 0 <;>
      simp [hb, ht]

/-- For a connected client with a live socket, the drag-move path emits the
    `update_object` event exactly when `THROTTLE_INTERVAL` ms elapsed since
    the last recorded emission for this object id. -/
theorem uLT_emit (t : Int) (c : ClientSync) (oid : String) (p : ObjectPosition)
    (hs : c.hasSocket = true) (hc : c.isConnected = true) :
    (updateLocalThrottled t c oid p).2 =
      if THROTTLE_INTERVAL ≤ t - (getKV c.lastEmitTime oid).getD 0 then
        [ClientEmit.updateObject oid p]
      else [] := by
  unfold updateLocalThrottled emitUpdateObject updateObjectLocal
  by_cases ht : THROTTLE_INTERVAL ≤ t - (getKV c.lastEmitTime oid).getD 0 <;>
    simp [hs, hc, ht]

/-- For a connected client with a live socket, the drag-move path records the
    emission time exactly when it emits. -/
theorem uLT_lastEmitTime (t : Int) (c : ClientSync) (oid : String) (p : ObjectPosition)
    (hs : c.hasSocket = true) (hc : c.isConnected = true) :
    (updateLocalThrottled t c oid p).1.lastEmitTime =
      if THROTTLE_INTERVAL ≤ t - (getKV c.lastEmitTime oid).getD 0 then
        setKV c.lastEmitTime oid t
      else c.lastEmitTime := by
  unfold updateLocalThrottled emitUpdateObject updateObjectLocal
  by_cases ht : THROTTLE_INTERVAL ≤ t - (getKV c.lastEmitTime oid).getD 0 <;>
    simp [hs, hc, ht]

/-- C8, counterexample to the claim as stated: a connected client with a live
    socket (reached by a forced drag-end emission for `"o1"` at `t = 1000`)
    performs two drag-move calls for the same object id at `t = 1005` and
    `t = 1010` — separated by less than 16 ms — and the pair produces zero
    network emissions, not exactly one, because both fall inside the throttle
    window opened by the earlier recorded emission. -/
theorem two_rapid_updates_can_emit_nothing :
    (let c0 := (emitUpdateObjectForce 1000
        (connectedClient [⟨"o1", 0, 0, "catapult"⟩]) "o1" ⟨0, 0⟩).1
     let r1 := updateLocalThrottled 1005 c0 "o1" ⟨1, 1⟩
     let r2 := updateLocalThrottled 1010 r1.1 "o1" ⟨2, 2⟩
     c0.hasSocket = true ∧ c0.isConnected = true
     ∧ (1010 : Int) - 1005 < THROTTLE_INTERVAL
     ∧ r1.2 = [] ∧ r2.2 = []) := by
  decide

/-- C8 as amended: for a connected client with a live socket, the drag-move
    path updates the local position immediately on every call and emits iff at
    least 16 ms have elapsed since the last recorded emission for that object
    id; two calls for the same id less than 16 ms apart produce at most one
    emission — exactly one when the first call itself emits — and calls 16 ms
    or more apart each emit provided the first one emits. -/
theorem throttled_update_amended (c : ClientSync) (oid : String)
    (p1 p2 : ObjectPosition) (t1 t2 : Int)
    (hs : c.hasSocket = true) (hc : c.isConnected = true) :
    (updateLocalThrottled t1 c oid p1).1.objects
        = c.objects.map (fun o => if o.id = oid then { o with x := p1.x, y := p1.y } else o)
    ∧ ((updateLocalThrottled t1 c oid p1).2 ≠ []
        ↔ THROTTLE_INTERVAL ≤ t1 - ((getKV c.lastEmitTime oid).getD 0))
    ∧ (t2 - t1 < THROTTLE_INTERVAL →
        (updateLocalThrottled t1 c oid p1).2.length
          + (updateLocalThrottled t2 (updateLocalThrottled t1 c oid p1).1 oid p2).2.length ≤ 1)
    ∧ (THROTTLE_INTERVAL ≤ t1 - ((getKV c.lastEmitTime oid).getD 0) →
        t2 - t1 < THROTTLE_INTERVAL →
        (updateLocalThrottled t1 c oid p1).2 = [ClientEmit.updateObject oid p1]
        ∧ (updateLocalThrottled t2 (updateLocalThrottled t1 c oid p1).1 oid p2).2 = [])
    ∧ (THROTTLE_INTERVAL ≤ t1 - ((getKV c.lastEmitTime oid).getD 0) →
        THROTTLE_INTERVAL ≤ t2 - t1 →
        (updateLocalThrottled t1 c oid p1).2 = [ClientEmit.updateObject oid p1]
        ∧ (updateLocalThrottled t2 (updateLocalThrottled t1 c oid p1).1 oid p2).2
            = [ClientEmit.updateObject oid p2]) := by
  have hs2 : (updateLocalThrottled t1 c oid p1).1.hasSocket = true :=
    (uLT_hasSocket t1 c oid p1).trans hs
  have hc2 : (updateLocalThrottled t1 c oid p1).1.isConnected = true :=
    (uLT_isConnected t1 c oid p1).trans hc
  have he1 := uLT_emit t1 c oid p1 hs hc
  have he2 := uLT_emit t2 (updateLocalThrottled t1 c oid p1).1 oid p2 hs2 hc2
  have hl1 := uLT_lastEmitTime t1 c oid p1 hs hc
  refine ⟨uLT_objects t1 c oid p1, ?_, ?_, ?_, ?_⟩
  · rw [he1]
    by_cases h1 : THROTTLE_INTERVAL ≤ t1 - (getKV c.lastEmitTime oid).getD 0
    · simp [h1]
    · simp [h1]
  · intro hlt
    rw [he1, he2, hl1]
    by_cases h1 : THROTTLE_INTERVAL ≤ t1 - (getKV c.lastEmitTime oid).getD 0
    · rw [if_pos h1, if_pos h1]
      simp only [getKV_setKV_self, Option.getD_some]
      rw [if_neg (not_le.mpr hlt)]
      simp
    · rw [if_neg h1, if_neg h1]
      by_cases h2 : THROTTLE_INTERVAL ≤ t2 - (getKV c.lastEmitTime oid).getD 0 <;>
        simp [h2]
  · intro h1 hlt
    rw [he1, he2, hl1, if_pos h1, if_pos h1]
    simp only [getKV_setKV_self, Option.getD_some]
    rw [if_neg (not_le.mpr hlt)]
    simp
  · intro h1 h2
    rw [he1, he2, hl1, if_pos h1, if_pos h1]
    simp only [getKV_setKV_self, Option.getD_some]
    rw [if_pos h2]
    simp

/-- Witness for the amended C8 on a fresh connected client: a first drag-move
    at `t = 1000` emits, a second one 5 ms later is throttled. -/
theorem throttled_update_amended_witness :
    (connectedClient [⟨"o1", 0, 0, "catapult"⟩]).hasSocket = true
    ∧ (updateLocalThrottled 1000
        (connectedClient [⟨"o1", 0, 0, "catapult"⟩]) "o1" ⟨1, 1⟩).2
        = [ClientEmit.updateObject "o1" ⟨1, 1⟩]
    ∧ (updateLocalThrottled 1005
        (updateLocalThrottled 1000
          (connectedClient [⟨"o1", 0, 0, "catapult"⟩]) "o1" ⟨1, 1⟩).1 "o1" ⟨2, 2⟩).2
        = [] :=
  ⟨rfl,
   ((throttled_update_amended (connectedClient [⟨"o1", 0, 0, "catapult"⟩]) "o1"
      ⟨1, 1⟩ ⟨2, 2⟩ 1000 1005 rfl rfl).2.2.2.1 (by decide) (by decide)).1,
   ((throttled_update_amended (connectedClient [⟨"o1", 0, 0, "catapult"⟩]) "o1"
      ⟨1, 1⟩ ⟨2, 2⟩ 1000 1005 rfl rfl).2.2.2.1 (by decide) (by decide)).2⟩

/-- C1 (evaluating the code at the failing input): two sockets join room
    `"r1"`, `"s1"` creates object `"o1"`, then `"s1"` — a joined socket —
    sends `delete_object` for the existing `"o1"`. The relay of
    `dist/index.js` registers no listener for `delete_object`, so the event
    changes nothing and nothing is broadcast: the object is still in the
    store afterwards, even though `RoomManager.deleteObject` would have
    succeeded (returned `true`) had the relay called it. -/
theorem delete_event_is_dropped_by_relay :
    (let st1 := (handleEvent initialServer "s1" (.joinRoom "r1")).1
     let st2 := (handleEvent st1 "s2" (.joinRoom "r1")).1
     let st3 := (handleEvent st2 "s1" (.createObject ⟨"o1", 10, 10, "catapult"⟩)).1
     handleEvent st3 "s1" (.deleteObject "o1") = (st3, [])
     ∧ roomLookup st3.manager "r1" "o1" = some ⟨"o1", 10, 10, "catapult"⟩
     ∧ (deleteObject st3.manager "r1" "o1").1 = true) := by
  decide

end PwHub
